import Mathlib

/-!
Verification of the fuzzy language-lookup service in `src/main.py`.

The service's core is `search_closest_items`, which ranks a catalog of
language names against a free-text query using the fuzzywuzzy library's
`process.extract`, filters the matches by a minimum score, and re-sorts
the survivors in non-increasing score order.  The remaining request
handlers (`supported_languages`, `translate`), the authentication check
`is_authenticated`, and the startup configuration loading are embedded
as pure functions over explicit inputs.

Python string methods (`str.lower`, `str.split(",")`, `str.strip`) are
modelled character-by-character (`lower`, `split_comma`, `strip`) so that
every definition evaluates on concrete inputs; lowercasing is modelled on
the ASCII range, which covers the language names the service handles.

The fuzzywuzzy scoring function (`fuzz.WRatio`) is an external library
dependency, so the embedding is parameterized by an arbitrary scorer
`String → String → Nat`; `process.extract`'s own algorithm (score every
choice, return the `limit` best — default 5 — in non-increasing score
order, stably) is modelled explicitly.  A concrete executable scorer
`similarity`, a normalized Levenshtein ratio on 0–100 that scores 0
against an empty string exactly as `fuzz.WRatio` does, instantiates the
parametric theorems at concrete inputs.
-/

namespace GoogleTranslator

/-- Model of Python `str.lower` on the ASCII range: every character is
lowercased. -/
def lower (s : String) : String :=
  String.mk (s.toList.map Char.toLower)

/-- Split a character list at every occurrence of `sep`, keeping empty
pieces, as Python `str.split(sep)` does on the underlying characters. -/
def split_list (sep : Char) : List Char → List (List Char)
  | [] => [[]]
  | c :: rest =>
    let r := split_list sep rest
    if c = sep then [] :: r
    else
      match r with
      | [] => [[c]]
      | h :: t => (c :: h) :: t

/-- Model of Python `s.split(",")`: the pieces of `s` between commas, in
order, empty pieces included (`"".split(",") == [""]`, `"a,,".split(",")
== ["a", "", ""]`). -/
def split_comma (s : String) : List String :=
  (split_list ',' s.toList).map String.mk

/-- Model of Python `str.strip()`: surrounding whitespace removed. -/
def strip (s : String) : String :=
  String.mk (((s.toList.dropWhile Char.isWhitespace).reverse.dropWhile
    Char.isWhitespace).reverse)

/-- The "non-increasing key" relation: `a ≼ b` when the key of `a` is at
least the key of `b`.  Python's `sorted(l, key=f, reverse=True)` is the
stable sort of `l` by this relation on keys `f`. -/
def keyGE {α : Type} (f : α → Nat) (a b : α) : Prop :=
  f b ≤ f a

instance {α : Type} (f : α → Nat) : DecidableRel (keyGE f) :=
  fun a b => inferInstanceAs (Decidable (f b ≤ f a))

instance {α : Type} (f : α → Nat) : IsTotal α (keyGE f) :=
  ⟨fun a b => (Nat.le_total (f b) (f a)).elim Or.inl Or.inr⟩

instance {α : Type} (f : α → Nat) : IsTrans α (keyGE f) :=
  ⟨fun _ _ _ h1 h2 => Nat.le_trans h2 h1⟩

/-- Model of fuzzywuzzy's `process.extract(query, choices)`: every choice is
paired with its score against the query, and the `limit` (default 5)
highest-scoring pairs are returned in non-increasing score order.
`heapq.nlargest` is documented as equivalent to
`sorted(iterable, key=key, reverse=True)[:n]`, a stable descending sort
followed by truncation; `insertionSort` by `keyGE` is that stable sort. -/
def extract (scorer : String → String → Nat) (query : String) (choices : List String)
    (limit : Nat := 5) : List (String × Nat) :=
  ((choices.map fun c => (c, scorer query c)).insertionSort (keyGE Prod.snd)).take limit

/-- Line 66 of `src/main.py`:
`filtered_matches = [match for match, score in matches if score >= threshold]`,
where `matches = process.extract(search_word, items)` (line 63). -/
def filtered_matches (scorer : String → String → Nat) (search_word : String)
    (items : List String) (threshold : Nat) : List String :=
  (extract scorer search_word items).filterMap fun p =>
    if threshold ≤ p.2 then some p.1 else none

/-- The sort key of line 69 of `src/main.py`:
`lambda x: matches[filtered_matches.index(x)][1]` — for a candidate `x`, the
score stored in `matches` at the position `x` occupies in the (pre-sort)
`filtered_matches` list.  The `getD` default is never reached, since for
every `x` in `filtered_matches` that position is in range of `matches`. -/
def sort_key (scorer : String → String → Nat) (search_word : String)
    (items : List String) (threshold : Nat) (x : String) : Nat :=
  ((extract scorer search_word items).getD
    ((filtered_matches scorer search_word items threshold).indexOf x) ("", 0)).2

/-- Embedding of `search_closest_items` from `src/main.py` (lines 60–71):
score with `process.extract` (default limit 5!), keep the matches whose
score is at least `threshold` (line 66, `filtered_matches`), and re-sort
them with `sorted(..., key=..., reverse=True)` (line 69, a stable
non-increasing sort by `sort_key`). -/
def search_closest_items (scorer : String → String → Nat) (search_word : String)
    (items : List String) (threshold : Nat := 75) : List String :=
  (filtered_matches scorer search_word items threshold).insertionSort
    (keyGE (sort_key scorer search_word items threshold))

/-- Embedding of the module-level catalog construction (line 48):
`languages = [x.lower() for x in os.getenv('LANGUAGES').split(",")]`. -/
def languages_of (config : String) : List String :=
  (split_comma config).map lower

/-- The catalog as the spec's words describe it: the ordered sequence of
tokens, each trimmed of surrounding whitespace and lowercased, with empty
tokens dropped.  Stated for comparison with `languages_of`, the embedding
of what the code actually computes. -/
def catalog_spec (config : String) : List String :=
  ((split_comma config).map fun t => lower (strip t)).filter fun t => decide (t ≠ "")

/-- The process-wide configuration read at startup: `api_key = os.getenv('API_KEY')`
(line 47) and the language catalog (line 48). -/
structure Config where
  api_key : Option String
  languages : List String
deriving Repr, DecidableEq

/-- Embedding of module import-time startup (lines 47–48).  `os.getenv`
returns `None` for an absent variable, so a missing `API_KEY` simply
stores `none`; a missing `LANGUAGES` makes `os.getenv('LANGUAGES').split(",")`
raise `AttributeError` (`None` has no `split`), aborting the import, which
is the only startup failure. -/
def startup (env : String → Option String) : Except Unit Config :=
  let api_key := env "API_KEY"
  match env "LANGUAGES" with
  | none => Except.error ()
  | some s => Except.ok ⟨api_key, languages_of s⟩

/-- Embedding of `is_authenticated` (lines 52–58): the request's
`Authorization` header value (`none` when the header is absent, since the
`APIKeyHeader` is constructed with `auto_error=False`) is compared with the
configured `api_key` (`none` when `API_KEY` is unset); any mismatch raises
HTTP 401, equality returns `True`. -/
def is_authenticated (api_key : Option String) (api_key_header : Option String) :
    Except Nat Bool :=
  if api_key_header = api_key then Except.ok true else Except.error 401

/-- Outcome of the `/translate` handler body (lines 109–123), for a request
that already passed authentication: either the 400 validation error, or a
call to the external translation collaborator with the original prompt and
destination string. -/
inductive TranslateResult
  | validationError (status : Nat)
  | invokesTranslator (prompt : String) (destination_language : String)
deriving Repr, DecidableEq

/-- Embedding of the `/translate` handler body (lines 114–123):
`if userprompt.destination_language.lower() not in languages:` raise 400,
otherwise the translator is invoked with the unmodified prompt and
destination.  Membership in `languages` is exact list membership of the
lowercased destination — no fuzzy matching on this path. -/
def translate (languages : List String) (prompt : String) (destination_language : String) :
    TranslateResult :=
  if lower destination_language ∈ languages then
    TranslateResult.invokesTranslator prompt destination_language
  else
    TranslateResult.validationError 400

/-- Embedding of the `/supported_languages` handler body (lines 84–90) for an
authenticated request: `if search:` is Python truthiness, false for both
`None` and the empty string, in which case the whole catalog is returned.
The boolean in the result records whether `search_closest_items` was
invoked. -/
def supported_languages (scorer : String → String → Nat) (languages : List String)
    (search : Option String) : List String × Bool :=
  match search with
  | some s => if s = "" then (languages, false) else (search_closest_items scorer s languages, true)
  | none => (languages, false)

/-- A concrete executable scorer standing in for `fuzz.WRatio`: a normalized
Levenshtein similarity on the 0–100 scale over lowercased characters.  Like
`fuzz.WRatio` (whose `full_process`/`validate_string` step returns 0 when
either processed string is empty), it scores 0 whenever either input is
empty. -/
def similarity (a b : String) : Nat :=
  if a.toList.isEmpty || b.toList.isEmpty then 0
  else
    let la := a.toList.map Char.toLower
    let lb := b.toList.map Char.toLower
    let m := max la.length lb.length
    100 * (m - levenshtein Levenshtein.defaultCost la lb) / m

/-- An environment with `LANGUAGES` set but `API_KEY` absent, used to observe
startup behaviour when the shared secret is missing. -/
def env_missing_api_key : String → Option String :=
  fun k => if k = "LANGUAGES" then some "yoruba" else none

/-! ### Helper lemmas about `extract` and `filtered_matches` -/

theorem filterMap_threshold_eq (t : Nat) (l : List (String × Nat)) :
    (l.filterMap fun p => if t ≤ p.2 then some p.1 else none)
      = (l.filter fun p => decide (t ≤ p.2)).map Prod.fst := by
  induction l with
  | nil => rfl
  | cons p l ih =>
    by_cases h : t ≤ p.2 <;>
      simp [List.filterMap_cons, List.filter_cons, h, ih]

theorem filter_threshold_eq_takeWhile {t : Nat} :
    ∀ {l : List (String × Nat)}, l.Pairwise (keyGE Prod.snd) →
      l.filter (fun p => decide (t ≤ p.2)) = l.takeWhile fun p => decide (t ≤ p.2)
  | [], _ => rfl
  | p :: l, h => by
    obtain ⟨hp, hl⟩ := List.pairwise_cons.1 h
    by_cases hpt : t ≤ p.2
    · simp [List.filter_cons, List.takeWhile_cons, hpt,
        filter_threshold_eq_takeWhile hl]
    · have h1 : (decide (t ≤ p.2)) = false := by simp [hpt]
      rw [List.filter_cons, List.takeWhile_cons, h1,
        if_neg (by simp : ¬false = true), if_neg (by simp : ¬false = true)]
      refine List.filter_eq_nil_iff.2 fun q hq => ?_
      have hq2 : q.2 ≤ p.2 := hp q hq
      simp only [decide_eq_true_eq]
      omega

theorem extract_sorted (scorer : String → String → Nat) (q : String)
    (choices : List String) (limit : Nat) :
    (extract scorer q choices limit).Pairwise (keyGE Prod.snd) := by
  have h : ((choices.map fun c => (c, scorer q c)).insertionSort
      (keyGE Prod.snd)).Pairwise (keyGE Prod.snd) :=
    List.sorted_insertionSort (keyGE Prod.snd) _
  exact List.Pairwise.sublist (List.take_sublist _ _) h

theorem mem_extract {scorer : String → String → Nat} {q : String}
    {choices : List String} {limit : Nat} {p : String × Nat}
    (hp : p ∈ extract scorer q choices limit) :
    p.2 = scorer q p.1 ∧ p.1 ∈ choices := by
  have h1 : p ∈ (choices.map fun c => (c, scorer q c)).insertionSort (keyGE Prod.snd) :=
    List.mem_of_mem_take hp
  rw [List.mem_insertionSort] at h1
  rcases List.mem_map.1 h1 with ⟨c, hc, rfl⟩
  exact ⟨rfl, hc⟩

theorem extract_length_le (scorer : String → String → Nat) (q : String)
    (choices : List String) (limit : Nat) :
    (extract scorer q choices limit).length ≤ limit := by
  have h := List.length_take limit
    ((choices.map fun c => (c, scorer q c)).insertionSort (keyGE Prod.snd))
  rw [extract, h]
  exact Nat.min_le_left _ _

theorem extract_map_fst_nodup {choices : List String} (h : choices.Nodup)
    (scorer : String → String → Nat) (q : String) (limit : Nat) :
    ((extract scorer q choices limit).map Prod.fst).Nodup := by
  have hperm : List.Perm
      (((choices.map fun c => (c, scorer q c)).insertionSort
        (keyGE Prod.snd)).map Prod.fst)
      ((choices.map fun c => (c, scorer q c)).map Prod.fst) :=
    (List.perm_insertionSort _ _).map _
  have hbase : ((choices.map fun c => (c, scorer q c)).map Prod.fst) = choices := by
    simp [List.map_map, Function.comp_def]
  have h1 : (((choices.map fun c => (c, scorer q c)).insertionSort
      (keyGE Prod.snd)).map Prod.fst).Nodup :=
    hperm.nodup_iff.2 (by rw [hbase]; exact h)
  have h2 : (extract scorer q choices limit).map Prod.fst
      = (((choices.map fun c => (c, scorer q c)).insertionSort
          (keyGE Prod.snd)).map Prod.fst).take limit := by
    rw [extract, List.map_take]
  rw [h2]
  exact List.Nodup.sublist (List.take_sublist _ _) h1

theorem filtered_matches_eq (scorer : String → String → Nat) (q : String)
    (items : List String) (t : Nat) :
    filtered_matches scorer q items t
      = ((extract scorer q items).takeWhile fun p => decide (t ≤ p.2)).map Prod.fst := by
  rw [filtered_matches, filterMap_threshold_eq,
    filter_threshold_eq_takeWhile (extract_sorted scorer q items 5)]

/-- The quirky sort key of line 69 agrees with the true similarity score on
every element of `filtered_matches`: since `matches` is already in
non-increasing score order, the filtered list is the name column of a prefix
of `matches`, so the lookup `matches[filtered_matches.index(x)][1]` lands on
a pair whose name is `x` itself, and every pair in `matches` carries exactly
the score of its own name. -/
theorem sort_key_eq {scorer : String → String → Nat} {q : String}
    {items : List String} {t : Nat} {x : String}
    (hx : x ∈ filtered_matches scorer q items t) :
    sort_key scorer q items t x = scorer q x := by
  have hFeq := filtered_matches_eq scorer q items t
  have hj : (filtered_matches scorer q items t).indexOf x
      < (filtered_matches scorer q items t).length :=
    List.indexOf_lt_length.2 hx
  have hlen : (filtered_matches scorer q items t).length
      = ((extract scorer q items).takeWhile fun p => decide (t ≤ p.2)).length := by
    rw [hFeq, List.length_map]
  have hjW : (filtered_matches scorer q items t).indexOf x
      < ((extract scorer q items).takeWhile fun p => decide (t ≤ p.2)).length :=
    hlen ▸ hj
  have hjM : (filtered_matches scorer q items t).indexOf x
      < (extract scorer q items).length :=
    Nat.lt_of_lt_of_le hjW (List.takeWhile_sublist _).length_le
  have hFx : (filtered_matches scorer q items t)[(filtered_matches scorer q items t).indexOf x]
      = x := List.getElem_indexOf hj
  have hpre : ((extract scorer q items).takeWhile
        fun p => decide (t ≤ p.2))[(filtered_matches scorer q items t).indexOf x]
      = (extract scorer q items)[(filtered_matches scorer q items t).indexOf x] :=
    (List.takeWhile_prefix _).getElem hjW
  have hfst : ((extract scorer q items)[(filtered_matches scorer q items t).indexOf x]).1
      = x := by
    have h5 := hFx
    rw [List.getElem_of_eq hFeq hj, List.getElem_map] at h5
    rw [hpre] at h5
    exact h5
  have hmem : (extract scorer q items)[(filtered_matches scorer q items t).indexOf x]
      ∈ extract scorer q items := List.getElem_mem hjM
  have hsc := (mem_extract hmem).1
  rw [sort_key, List.getD_eq_getElem?_getD, List.getElem?_eq_getElem hjM, Option.getD_some,
    hsc, hfst]

/-- Membership in `filtered_matches`: exactly the names that `process.extract`
returned with a score at least the threshold. -/
theorem mem_filtered_iff (scorer : String → String → Nat) (q : String)
    (items : List String) (t : Nat) (c : String) :
    c ∈ filtered_matches scorer q items t ↔
      (c, scorer q c) ∈ extract scorer q items ∧ t ≤ scorer q c := by
  rw [filtered_matches, List.mem_filterMap]
  constructor
  · rintro ⟨p, hp, hpc⟩
    have h2 : t ≤ p.2 ∧ p.1 = c := by
      by_cases hcase : t ≤ p.2
      · rw [if_pos hcase, Option.some_inj] at hpc
        exact ⟨hcase, hpc⟩
      · rw [if_neg hcase] at hpc
        exact absurd hpc (Option.noConfusion)
    obtain ⟨ht, hc⟩ := h2
    have hp2 := (mem_extract hp).1
    have hpeq : p = (c, scorer q c) := by
      obtain ⟨p1, p2⟩ := p
      simp only at hp2 hc
      subst hc
      rw [hp2]
    rw [hpeq] at hp ht
    exact ⟨hp, ht⟩
  · rintro ⟨hmem, ht⟩
    exact ⟨(c, scorer q c), hmem, by rw [if_pos ht]⟩

/-- The output of `search_closest_items` is in non-increasing order of the
true similarity score. -/
theorem search_pairwise (scorer : String → String → Nat) (q : String)
    (items : List String) (t : Nat) :
    (search_closest_items scorer q items t).Pairwise
      fun a b => scorer q b ≤ scorer q a := by
  have hs : (search_closest_items scorer q items t).Pairwise
      (keyGE (sort_key scorer q items t)) :=
    List.sorted_insertionSort (keyGE (sort_key scorer q items t)) _
  refine List.Pairwise.imp_of_mem ?_ hs
  intro a b ha hb hab
  rw [search_closest_items, List.mem_insertionSort] at ha hb
  have hka := sort_key_eq ha
  have hkb := sort_key_eq hb
  rw [keyGE, hka, hkb] at hab
  exact hab

/-! ### Claim theorems -/

/-- C1 (amended): a candidate is returned by `search_closest_items` exactly
when it is among the (at most 5) pairs that `process.extract` returned AND
its score is at least the threshold.  The original claim — every candidate
scoring at least the threshold is returned — fails because `process.extract`
is called with its default limit of 5, so qualifying candidates beyond the
5 best are omitted. -/
theorem search_closest_items_mem_iff (scorer : String → String → Nat) (q : String)
    (items : List String) (t : Nat) (c : String) :
    c ∈ search_closest_items scorer q items t ↔
      (c, scorer q c) ∈ extract scorer q items ∧ t ≤ scorer q c := by
  rw [search_closest_items, List.mem_insertionSort]
  exact mem_filtered_iff scorer q items t c

/-- C1 counterexample: with six candidates all scoring at least the threshold
(here threshold 1), the sixth is omitted from the result even though its
similarity to the query meets the threshold. -/
theorem search_closest_items_drops_qualifying_candidate :
    1 ≤ similarity "aa" "ba" ∧
      "ba" ∈ (["aa", "ab", "ba", "aaa", "baa", "aab"] : List String) ∧
      "ba" ∉ search_closest_items similarity "aa" ["aa", "ab", "ba", "aaa", "baa", "aab"] 1 := by
  decide

/-- C2: for duplicate-free candidate lists, the result of
`search_closest_items` only contains values drawn from the candidate list
and has no duplicate elements. -/
theorem search_closest_items_subset_nodup (scorer : String → String → Nat)
    (q : String) (items : List String) (t : Nat) (h : items.Nodup) :
    (∀ c ∈ search_closest_items scorer q items t, c ∈ items) ∧
      (search_closest_items scorer q items t).Nodup := by
  constructor
  · intro c hc
    rw [search_closest_items, List.mem_insertionSort] at hc
    have h1 := (mem_filtered_iff scorer q items t c).1 hc
    exact (mem_extract h1.1).2
  · have hperm : List.Perm (search_closest_items scorer q items t)
        (filtered_matches scorer q items t) := by
      rw [search_closest_items]
      exact List.perm_insertionSort _ _
    refine hperm.nodup_iff.2 ?_
    rw [filtered_matches_eq]
    exact List.Nodup.sublist ((List.takeWhile_sublist _).map Prod.fst)
      (extract_map_fst_nodup h scorer q 5)

/-- C2 witness: the theorem instantiated at the catalog `["yoruba", "hausa"]`
with the query `"yoruba"` and the default threshold 75. -/
theorem search_closest_items_subset_nodup_witness :
    (∀ c ∈ search_closest_items similarity "yoruba" ["yoruba", "hausa"] 75,
        c ∈ (["yoruba", "hausa"] : List String)) ∧
      (search_closest_items similarity "yoruba" ["yoruba", "hausa"] 75).Nodup :=
  search_closest_items_subset_nodup similarity "yoruba" ["yoruba", "hausa"] 75 (by decide)

/-- C3 (amended): among the candidates that are actually returned, a strictly
higher-scoring candidate appears before a lower-scoring one.  The original
claim — this holds for every pair of candidates scoring at least the
threshold — fails because `process.extract`'s limit of 5 can exclude both
candidates from the result entirely. -/
theorem search_closest_items_sorted_desc (scorer : String → String → Nat)
    (q : String) (items : List String) (t : Nat) (a b : String)
    (ha : a ∈ search_closest_items scorer q items t)
    (hb : b ∈ search_closest_items scorer q items t)
    (hab : scorer q b < scorer q a) :
    List.indexOf a (search_closest_items scorer q items t)
      < List.indexOf b (search_closest_items scorer q items t) := by
  have hp := search_pairwise scorer q items t
  have hia := List.indexOf_lt_length.2 ha
  have hib := List.indexOf_lt_length.2 hb
  have h1 : (search_closest_items scorer q items t)[List.indexOf a
      (search_closest_items scorer q items t)] = a := List.getElem_indexOf hia
  have h2 : (search_closest_items scorer q items t)[List.indexOf b
      (search_closest_items scorer q items t)] = b := List.getElem_indexOf hib
  by_contra hcon
  push_neg at hcon
  rcases Nat.lt_or_ge (List.indexOf b (search_closest_items scorer q items t))
      (List.indexOf a (search_closest_items scorer q items t)) with hlt | hge
  · have hR := List.pairwise_iff_getElem.1 hp _ _ hib hia hlt
    rw [h1, h2] at hR
    omega
  · have heq : List.indexOf b (search_closest_items scorer q items t)
        = List.indexOf a (search_closest_items scorer q items t) :=
      Nat.le_antisymm hcon hge
    have h3 : (search_closest_items scorer q items t)[List.indexOf a
        (search_closest_items scorer q items t)] = b := by
      rw [← h2]
      congr 1
      omega
    have h4 : a = b := h1.symm.trans h3
    rw [h4] at hab
    omega

/-- C3 witness: for the query `"aa"` over `["aa", "ab"]`, the exact match
`"aa"` (score 100) appears before `"ab"` (score 50). -/
theorem search_closest_items_sorted_desc_witness :
    List.indexOf "aa" (search_closest_items similarity "aa" ["aa", "ab"] 1)
      < List.indexOf "ab" (search_closest_items similarity "aa" ["aa", "ab"] 1) :=
  search_closest_items_sorted_desc similarity "aa" ["aa", "ab"] 1 "aa" "ab"
    (by decide) (by decide) (by decide)

/-- C3 counterexample: over seven candidates that all score at least the
threshold (here 1), the sixth- and seventh-ranked candidates are both cut by
`process.extract`'s limit of 5, so the strictly higher-scoring one does not
appear (at all, hence not before the other) in the result. -/
theorem search_closest_items_order_fails_beyond_limit :
    1 ≤ similarity "aa" "aaaaaaaa" ∧
      similarity "aa" "aaaaaaaa" < similarity "aa" "aaaaaaa" ∧
      "aaaaaaa" ∈ (["aa", "aaa", "aaaa", "aaaaa", "aaaaaa", "aaaaaaa", "aaaaaaaa"] : List String) ∧
      "aaaaaaaa" ∈ (["aa", "aaa", "aaaa", "aaaaa", "aaaaaa", "aaaaaaa", "aaaaaaaa"] : List String) ∧
      "aaaaaaa" ∉ search_closest_items similarity "aa"
        ["aa", "aaa", "aaaa", "aaaaa", "aaaaaa", "aaaaaaa", "aaaaaaaa"] 1 := by
  decide

/-- C4: for a scorer that, like `fuzz.WRatio`, gives every candidate score 0
against the empty query, `search_closest_items` with the empty string as
query and any positive threshold returns the empty list. -/
theorem search_closest_items_empty_query (scorer : String → String → Nat)
    (items : List String) (t : Nat) (h0 : ∀ y, scorer "" y = 0) (ht : 0 < t) :
    search_closest_items scorer "" items t = [] := by
  have hF : filtered_matches scorer "" items t = [] := by
    rw [filtered_matches]
    refine List.filterMap_eq_nil_iff.2 fun p hp => ?_
    have h2 := (mem_extract hp).1
    have h3 : ¬t ≤ p.2 := by
      rw [h2, h0 p.1]
      omega
    rw [if_neg h3]
  rw [search_closest_items, hF]
  rfl

/-- C4 witness: the empty query against the catalog `["yoruba", "hausa"]`
with the default threshold 75 returns the empty list. -/
theorem search_closest_items_empty_query_witness :
    search_closest_items similarity "" ["yoruba", "hausa"] 75 = [] :=
  search_closest_items_empty_query similarity ["yoruba", "hausa"] 75
    (fun _ => rfl) (by decide)

/-- C5 (amended): the Language Catalog built at startup is the ordered
sequence of the comma-separated tokens of the configuration string, each
lowercased — tokens are NOT trimmed of whitespace and empty tokens are NOT
dropped, contrary to the original claim. -/
theorem languages_of_tokens (config : String) :
    (languages_of config).length = (split_comma config).length ∧
      ∀ i : Nat, (languages_of config)[i]? = ((split_comma config)[i]?).map lower := by
  refine ⟨?_, fun i => ?_⟩ <;> simp [languages_of]

/-- C5 counterexample: on the configuration string `"A ,,"` the code yields
`["a ", "", ""]` — trailing whitespace kept, empty tokens kept — while the
trimmed/filtered catalog the claim describes would be `["a"]`. -/
theorem languages_of_keeps_whitespace_and_empties :
    languages_of "A ,," = ["a ", "", ""] ∧ catalog_spec "A ,," = ["a"] ∧
      languages_of "A ,," ≠ catalog_spec "A ,," := by
  decide

/-- C6: an authenticated `/translate` request whose destination language,
after lowercasing, is not a member of the catalog fails with the 400
validation error and the external translator is never invoked; when the
lowercased destination is a member, the translator is invoked.  Membership
is exact list membership, never fuzzy. -/
theorem translate_rejects_unknown_destination (langs : List String)
    (prompt dest : String) :
    (lower dest ∉ langs →
        translate langs prompt dest = TranslateResult.validationError 400) ∧
      (lower dest ∈ langs →
        translate langs prompt dest = TranslateResult.invokesTranslator prompt dest) := by
  constructor <;> intro h <;> simp [translate, h]

/-- C6 witness: with catalog `["yoruba", "hausa"]` the destination
`"french"` is rejected with the 400 validation error. -/
theorem translate_rejects_unknown_destination_witness :
    translate ["yoruba", "hausa"] "My name is Bard" "french"
      = TranslateResult.validationError 400 :=
  (translate_rejects_unknown_destination ["yoruba", "hausa"] "My name is Bard" "french").1
    (by decide)

/-- C7 (amended): startup fails exactly when the `LANGUAGES` configuration
value is absent (`None.split` raises).  A missing `API_KEY` does NOT cause a
startup failure, contrary to the original claim: `os.getenv` simply returns
`None` and the process serves traffic. -/
theorem startup_ok_iff_languages_present (env : String → Option String) :
    (startup env).isOk = (env "LANGUAGES").isSome := by
  cases h : env "LANGUAGES" <;> simp [startup, h, Except.isOk, Except.toBool]

/-- C7 counterexample: in an environment where `API_KEY` is absent (and
`LANGUAGES` is `"yoruba"`), startup succeeds, storing `none` as the key —
the process is not prevented from serving. -/
theorem startup_ok_without_api_key :
    env_missing_api_key "API_KEY" = none ∧
      startup env_missing_api_key = Except.ok ⟨none, ["yoruba"]⟩ :=
  ⟨rfl, rfl⟩

/-- C8: `is_authenticated` raises the 401 error exactly when the supplied
`Authorization` header value differs from the configured API key; in
particular, with `API_KEY` unset (`none`) and no `Authorization` header
(`none`), the comparison succeeds and the request is authenticated. -/
theorem is_authenticated_exact (k h : Option String) :
    (is_authenticated k h = Except.error 401 ↔ h ≠ k) ∧
      is_authenticated none none = Except.ok true := by
  refine ⟨?_, rfl⟩
  by_cases hk : h = k <;> simp [is_authenticated, hk]

/-- C9: the result of `search_closest_items` never has more than 5 elements,
because `process.extract` is invoked with its default result limit of 5. -/
theorem search_closest_items_length_le (scorer : String → String → Nat)
    (q : String) (items : List String) (t : Nat) :
    (search_closest_items scorer q items t).length ≤ 5 := by
  rw [search_closest_items, List.length_insertionSort]
  have h1 : (filtered_matches scorer q items t).length
      ≤ (extract scorer q items).length := by
    rw [filtered_matches]
    exact List.length_filterMap_le _ _
  exact Nat.le_trans h1 (extract_length_le scorer q items 5)

/-- C10: a `/supported_languages` request whose search parameter is the
empty string returns the whole catalog in load order, the same result as
when no search value is supplied, and `search_closest_items` is not invoked
(the boolean component is `false`). -/
theorem supported_languages_empty_search (scorer : String → String → Nat)
    (langs : List String) :
    supported_languages scorer langs (some "") = (langs, false) ∧
      supported_languages scorer langs (some "") = supported_languages scorer langs none :=
  ⟨rfl, rfl⟩

end GoogleTranslator
